import Mathlib

/-!
Shallow embedding of `src/specifications/jsons/generate_json.py`
(class `AcademicPaperDatabase`) and verification of the spec claims.

Modelling conventions:
* Python strings are Lean `String`.  Absent optional string arguments
  (Python `None`) are modelled as `""`; the source treats `None` and
  `""` identically in every place these parameters reach (both are
  falsy, both hit the same `x or default` branches).  Optional string
  LISTS are modelled as `List String`, with `[]` for `None` (again,
  both are falsy in all the guards of the source).
* The three Python dicts (`papers`, `authors`, `venues`) are
  association lists `List (Nat × record)` kept in insertion order;
  CPython dict iteration order is insertion order, which the list
  order mirrors.  `uuid4` identifier generation is modelled by the
  fresh-id counter `nextId`.
* Similarity scores are rationals scaled by 100 and held in `Nat`
  (0.5 -> 50, 0.7 -> 70, 0.15 -> 15, ...).  Every float score the
  source can build is a sum of values from {0, 0.15, 0.2, 0.3, 0.5};
  CPython doubles compare all of these sums and the literal 0.7
  exactly as the rationals do, so exact arithmetic is a faithful
  model of `score > best_score` and `score >= 0.7`.
* Exceptions are modelled with `Except String` (for `ValueError`) and
  `Option` (where `none` stands for an uncaught `IndexError`).  Error
  message strings are English stand-ins for the original message text;
  no claim depends on message contents.
* `datetime.now()` (the `created_at` field of a paper record) is
  environment dependent and is left out of the paper record.
* Case folding (`str.lower`) and whitespace tests are modelled on
  ASCII via `Char.toLower` / `Char.isWhitespace`.
-/

/-- Python `str.strip()`: drop whitespace from both ends. -/
def pyStrip (s : String) : String :=
  ⟨((s.data.dropWhile Char.isWhitespace).reverse.dropWhile Char.isWhitespace).reverse⟩

/-- One step of splitting a string at whitespace, folded from the right:
a whitespace character starts a new chunk, any other character is consed
onto the current first chunk. -/
def wordStep (c : Char) (acc : List (List Char)) : List (List Char) :=
  if c.isWhitespace then [] :: acc
  else
    match acc with
    | [] => [[c]]
    | w :: rest => (c :: w) :: rest

/-- Whitespace-delimited chunks of a character list, empty chunks kept. -/
def splitChunks (l : List Char) : List (List Char) :=
  l.foldr wordStep [[]]

/-- Python `str.split()` with no argument: whitespace-delimited words,
empty chunks discarded. -/
def pyWords (l : List Char) : List (List Char) :=
  (splitChunks l).filter (fun w => w ≠ [])

/-- Python `x or d` for strings (`None` and `""` are falsy). -/
def pyOr (x d : String) : String := if x = "" then d else x

/-- Python `str.lower()` (ASCII case folding, which covers the data in
scope). -/
def pyLower (s : String) : String := ⟨s.data.map Char.toLower⟩

/-- Python `str.split(sep)` for a one-character separator: empty pieces
are kept, the empty string gives one empty piece. -/
def splitOnChar (sep : Char) (l : List Char) : List (List Char) :=
  l.foldr
    (fun c acc =>
      if c = sep then [] :: acc
      else
        match acc with
        | [] => [[c]]
        | w :: rest => (c :: w) :: rest)
    [[]]

/-- Characters allowed in the local part of `_validate_email`:
`[a-zA-Z0-9._%+-]`. -/
def isLocalChar (c : Char) : Bool :=
  c.isAlphanum || c = '.' || c = '_' || c = '%' || c = '+' || c = '-'

/-- Characters allowed in the domain of `_validate_email`: `[a-zA-Z0-9.-]`. -/
def isDomainChar (c : Char) : Bool :=
  c.isAlphanum || c = '.' || c = '-'

/-- `_validate_email`: empty input is accepted; otherwise the stripped
input must fully match `[a-zA-Z0-9._%+-]+@[a-zA-Z0-9.-]+\.[a-zA-Z]{2,}`.
Since `@` occurs in no character class, the string must contain exactly
one `@`; since the final group is letters only, the `\.` of the pattern
must be the last dot of the domain part.  The decomposition below is
therefore equivalent to the regex. -/
def validateEmail (email : String) : Bool :=
  if email = "" then true
  else
    let t := pyStrip email
    match splitOnChar '@' t.data with
    | [localPart, domainPart] =>
      let ps := splitOnChar '.' domainPart
      let tld := ps.getLastD []
      let dom := List.intercalate ['.'] ps.dropLast
      if localPart ≠ [] ∧ localPart.all isLocalChar ∧
          dom ≠ [] ∧ dom.all isDomainChar ∧
          2 ≤ tld.length ∧ tld.all Char.isAlpha then
        true
      else false
    | _ => false

/-- A group of exactly four digits. -/
def isYear4 (l : List Char) : Bool := l.length == 4 && l.all Char.isDigit

/-- A group of one or two digits. -/
def isMD (l : List Char) : Bool := (l.length == 1 || l.length == 2) && l.all Char.isDigit

/-- Full-string match of `\d{4} sep \d{1,2} sep \d{1,2}`.  The separator
is not a digit, so splitting on it is equivalent to the anchored regex. -/
def fullYMD (sepc : Char) (t : String) : Bool :=
  match splitOnChar sepc t.data with
  | [y, m, d] => isYear4 y && isMD m && isMD d
  | _ => false

/-- `_validate_date`: anchored full match of one of the three date
patterns against the stripped input; empty input is invalid. -/
def validateDate (dateStr : String) : Bool :=
  if dateStr = "" then false
  else
    let t := pyStrip dateStr
    fullYMD '/' t || fullYMD '-' t || isYear4 t.data

/-- Python `str.zfill(2)` on a digit group. -/
def zfill2 (l : List Char) : List Char := List.replicate (2 - l.length) '0' ++ l

/-- The trailing `(\d{1,2})` group of the unanchored date patterns:
greedily one or two digits, anything may follow. -/
def matchDay : List Char → Option (List Char)
  | a :: b :: _ =>
    if a.isDigit && b.isDigit then some [a, b]
    else if a.isDigit then some [a] else none
  | [a] => if a.isDigit then some [a] else none
  | [] => none

/-- The `(\d{1,2}) sep (\d{1,2})` tail of the unanchored date patterns,
with the regex backtracking on the month group made explicit: a
two-digit month must be followed by the separator, otherwise a
one-digit month must be. -/
def matchMonthDay (sepc : Char) : List Char → Option (List Char × List Char)
  | d1 :: d2 :: s :: rest =>
    if d1.isDigit && d2.isDigit && s = sepc then
      (matchDay rest).map (fun d => ([d1, d2], d))
    else if d1.isDigit && d2 = sepc then
      (matchDay (s :: rest)).map (fun d => ([d1], d))
    else none
  | _ => none

/-- Unanchored prefix match of `(\d{4}) sep (\d{1,2}) sep (\d{1,2})`,
returning the three groups. -/
def matchYMD (sepc : Char) : List Char → Option (List Char × List Char × List Char)
  | c1 :: c2 :: c3 :: c4 :: s :: rest =>
    if c1.isDigit && c2.isDigit && c3.isDigit && c4.isDigit && s = sepc then
      (matchMonthDay sepc rest).map (fun md => ([c1, c2, c3, c4], md.1, md.2))
    else none
  | _ => none

/-- Unanchored prefix match of `(\d{4})`. -/
def matchYear4 : List Char → Option (List Char)
  | c1 :: c2 :: c3 :: c4 :: _ =>
    if c1.isDigit && c2.isDigit && c3.isDigit && c4.isDigit then
      some [c1, c2, c3, c4]
    else none
  | _ => none

/-- `_parse_date`: empty input gives `None`; otherwise the three date
patterns are tried in order as UNANCHORED `re.match` prefix matches on
the stripped input (the source omits the `$` anchors here, unlike
`_validate_date`); a match is rebuilt zero-padded, a bare year becomes
`YYYY-01-01`, and if nothing matches the ORIGINAL string is returned. -/
def parseDate (dateStr : String) : Option String :=
  if dateStr = "" then none
  else
    let t := (pyStrip dateStr).data
    match matchYMD '/' t with
    | some (y, m, d) => some ⟨y ++ '-' :: (zfill2 m ++ '-' :: zfill2 d)⟩
    | none =>
      match matchYMD '-' t with
      | some (y, m, d) => some ⟨y ++ '-' :: (zfill2 m ++ '-' :: zfill2 d)⟩
      | none =>
        match matchYear4 t with
        | some y => some ⟨y ++ ('-' :: '0' :: '1' :: '-' :: '0' :: '1' :: [])⟩
        | none => some dateStr

/-- `_extract_year_from_date`: first four characters when the string has
at least four, else `None`; `None` or empty input gives `None`. -/
def extractYearFromDate (dateStr : Option String) : Option String :=
  match dateStr with
  | none => none
  | some s => if s = "" then none else if 4 ≤ s.length then some ⟨s.data.take 4⟩ else none

/-- `_parse_name`: empty input gives the sentinel pair; otherwise the
stripped input is whitespace-tokenized and the token count dispatched.
`none` models the `IndexError` that `name_parts[0]` raises when the
non-empty input contains only whitespace (zero tokens). -/
def parseName (fullName : String) : Option (String × String) :=
  if fullName = "" then some ("n/a", "n/a")
  else
    match pyWords (pyStrip fullName).data with
    | [] => none
    | [t] => some ("n/a", ⟨t⟩)
    | [a, b] => some (⟨a⟩, ⟨b⟩)
    | a :: rest => some (⟨a⟩, String.intercalate " " (rest.map String.mk))

/-- The marker glyphs removed from author names: `[*†‡§¶]`. -/
def markerGlyphs : List Char := ['*', '†', '‡', '§', '¶']

/-- The pure per-piece part of `_parse_authors`: split on commas, strip
each piece, flag it as corresponding when it contains `*` (only the
asterisk is tested, line 112), remove all five marker glyphs, strip
again, and drop pieces that became empty. -/
def splitAuthors (authorsStr : String) : List (String × Bool) :=
  if authorsStr = "" then []
  else
    (splitOnChar ',' authorsStr.data).filterMap (fun piece =>
      let name := pyStrip ⟨piece⟩
      let isCorresponding := name.data.contains '*'
      let cleanName := pyStrip ⟨name.data.filter (fun c => !markerGlyphs.contains c)⟩
      if cleanName = "" then none else some (cleanName, isCorresponding))

/-- Python regex word character (`\w` over the ASCII inputs in scope). -/
def isWordChar (c : Char) : Bool := c.isAlphanum || c = '_'

/-- A `\b` boundary holds before the current position: start of string
or a non-word character just before it. -/
def boundaryBefore : Option Char → Bool
  | none => true
  | some c => !isWordChar c

/-- A `\b` boundary holds after the matched text: end of string or a
non-word character next. -/
def boundaryAfter : List Char → Bool
  | [] => true
  | c :: _ => !isWordChar c

/-- `re.sub(r"\b\d{4}\b", "", s)`: delete every four-digit run with a
word boundary on both sides.  `prev` is the character of the original
string just before the current scan position. -/
def stripYears (prev : Option Char) : List Char → List Char
  | c1 :: c2 :: c3 :: c4 :: rest =>
    if boundaryBefore prev && c1.isDigit && c2.isDigit && c3.isDigit && c4.isDigit
        && boundaryAfter rest then
      stripYears (some c4) rest
    else
      c1 :: stripYears (some c1) (c2 :: c3 :: c4 :: rest)
  | c :: rest => c :: stripYears (some c) rest
  | [] => []

/-- The two-letter ordinal suffixes `st`, `nd`, `rd`, `th`. -/
def isOrdSuffix (a b : Char) : Bool :=
  (a = 's' && b = 't') || (a = 'n' && b = 'd') || (a = 'r' && b = 'd') || (a = 't' && b = 'h')

/-- `re.sub(r"\b\d+(st|nd|rd|th)\b", "", s)`.  At a position with a word
boundary before it, `\d+` must consume the whole maximal digit run (the
suffix letters are not digits), after which the suffix and a closing
boundary must follow.  `fuel` makes the recursion structural; every
step consumes at least one character, so the initial fuel `l.length`
never runs out. -/
def stripOrdAux : Nat → Option Char → List Char → List Char
  | 0, _, l => l
  | _ + 1, _, [] => []
  | fuel + 1, prev, c :: rest =>
    let ds := (c :: rest).takeWhile Char.isDigit
    match (c :: rest).drop ds.length with
    | a :: b :: r3 =>
      if boundaryBefore prev && !ds.isEmpty && isOrdSuffix a b && boundaryAfter r3 then
        stripOrdAux fuel (some b) r3
      else c :: stripOrdAux fuel (some c) rest
    | _ => c :: stripOrdAux fuel (some c) rest

/-- Delete every `\b\d+(st|nd|rd|th)\b` occurrence. -/
def stripOrdinals (l : List Char) : List Char := stripOrdAux l.length none l

/-- One step of `re.sub(r"\s+", " ", s)`, folded from the right: a
whitespace character becomes a single space unless the text to its
right already starts with the collapsed space. -/
def collapseStep (c : Char) (acc : List Char) : List Char :=
  if c.isWhitespace then
    match acc with
    | ' ' :: _ => acc
    | _ => ' ' :: acc
  else c :: acc

/-- `re.sub(r"\s+", " ", s)`: collapse every whitespace run to one space. -/
def collapseWs (l : List Char) : List Char := l.foldr collapseStep []

/-- `_normalize_conference_name`: drop year tokens, drop ordinal tokens,
collapse whitespace, strip. -/
def normalizeConferenceName (conferenceName : String) : String :=
  if conferenceName = "" then conferenceName
  else pyStrip ⟨collapseWs (stripOrdinals (stripYears none conferenceName.data))⟩

/-- Value of a digit list, most significant first (`int` on a digit string). -/
def digitsToNat (l : List Char) : Nat :=
  l.foldl (fun n c => n * 10 + (c.toNat - '0'.toNat)) 0

/-- `_extract_citations`: `re.search(r"(\d+)")` finds the first maximal
digit run anywhere in the string; its value, or 0 when there is none or
the input is empty. -/
def extractCitations (citationStr : String) : Nat :=
  if citationStr = "" then 0
  else
    let ds := (citationStr.data.dropWhile (fun c => !c.isDigit)).takeWhile Char.isDigit
    if ds.isEmpty then 0 else digitsToNat ds

/-- An author record (`self.authors[author_id]`), field names as in the
source dict.  Every key the source ever writes is present, so plain
`String` fields model `author.get(key, default)` exactly. -/
structure Author where
  id : Nat
  first_name : String
  last_name : String
  full_name : String
  affiliation : String
  email : String
  papers : List Nat
  total_citations : Nat
deriving DecidableEq

/-- A venue record (`self.venues[venue_id]`).  The four classification
and canonical-name keys exist only on some records, so they are
`Option String` with `none` for an absent key (`dict.get` of an absent
key gives `None`, which differs from the sentinel `"n/a"`). -/
structure Venue where
  id : Nat
  name : String
  vtype : String
  publisher : String
  papers : List Nat
  total_citations : Nat
  normalized_name : Option String
  cas_division : Option String
  jcr_division : Option String
  ccf_class : Option String
deriving DecidableEq

/-- A paper record (`self.papers[paper_id]`), without the environment
dependent `created_at` timestamp. -/
structure Paper where
  id : Nat
  title : String
  ptype : String
  authors : List Nat
  corresponding_authors : List Nat
  publication_date : Option String
  publication_year : Option String
  venue_id : Option Nat
  volume : String
  issue : String
  pages : String
  publisher : String
  abstract : String
  total_citations : Nat
deriving DecidableEq

/-- The whole database object: the three dicts plus the fresh-id counter
modelling `uuid4`. -/
structure DB where
  papers : List (Nat × Paper)
  authors : List (Nat × Author)
  venues : List (Nat × Venue)
  nextId : Nat
deriving DecidableEq

def emptyDB : DB := ⟨[], [], [], 0⟩

/-- Dict lookup `d.get(k)`: value at the first matching key. -/
def pyGet {α : Type} : List (Nat × α) → Nat → Option α
  | [], _ => none
  | (k, v) :: rest, key => if k = key then some v else pyGet rest key

/-- Dict assignment `d[k] = v`: replace the first binding of `k`, or
append a new binding (CPython keeps insertion order). -/
def pySet {α : Type} : List (Nat × α) → Nat → α → List (Nat × α)
  | [], key, v => [(key, v)]
  | (k, w) :: rest, key, v =>
    if k = key then (key, v) :: rest else (k, w) :: pySet rest key v

/-- In-place update of the record stored at a key. -/
def pyModify {α : Type} : List (Nat × α) → Nat → (α → α) → List (Nat × α)
  | [], _, _ => []
  | (k, w) :: rest, key, f =>
    if k = key then (k, f w) :: rest else (k, w) :: pyModify rest key f

/-- Python `needle in hay` on strings: contiguous substring test. -/
def isSubstring (needle hay : String) : Bool :=
  hay.data.tails.any (fun t => needle.data.isPrefixOf t)

/-- `_author_similarity_score`, scores scaled by 100: name match 50,
affiliation exact 30 / substring either way 15, email exact 20. -/
def authorSimilarityScore (author1 : Author) (firstName lastName affiliation email : String) :
    Nat :=
  let nameScore :=
    if pyLower author1.first_name = pyLower firstName ∧
        pyLower author1.last_name = pyLower lastName then 50 else 0
  let affScore :=
    if affiliation ≠ "" ∧ author1.affiliation ≠ "" ∧ author1.affiliation ≠ "n/a" then
      if pyLower affiliation = pyLower author1.affiliation then 30
      else if isSubstring (pyLower affiliation) (pyLower author1.affiliation) ∨
          isSubstring (pyLower author1.affiliation) (pyLower affiliation) then 15
      else 0
    else 0
  let emailScore :=
    if email ≠ "" ∧ author1.email ≠ "" ∧ author1.email ≠ "n/a" ∧
        pyLower email = pyLower author1.email then 20 else 0
  nameScore + affScore + emailScore

/-- One iteration of the best-match loop of `_get_or_create_author`:
`if score > best_score and score >= 0.7`. -/
def bestStep (firstName lastName affiliation email : String)
    (acc : Option Nat × Nat) (p : Nat × Author) : Option Nat × Nat :=
  let score := authorSimilarityScore p.2 firstName lastName affiliation email
  if acc.2 < score ∧ 70 ≤ score then (some p.1, score) else acc

/-- The scan over `self.authors.items()` in `_get_or_create_author`,
starting from `best_match_id = None`, `best_score = 0.0`. -/
def findBestAuthor (authors : List (Nat × Author))
    (firstName lastName affiliation email : String) : Option Nat × Nat :=
  authors.foldl (bestStep firstName lastName affiliation email) (none, 0)

/-- The merge step on a matched author: back-fill affiliation and email
only while they hold the sentinel. -/
def updateMatchedAuthor (a : Author) (affiliation email : String) : Author :=
  let a1 := if affiliation ≠ "" ∧ a.affiliation = "n/a" then
      { a with affiliation := affiliation } else a
  if email ≠ "" ∧ a1.email = "n/a" then { a1 with email := email } else a1

/-- The record written for a brand-new author. -/
def newAuthorRecord (aid : Nat) (firstName lastName affiliation email : String) : Author :=
  { id := aid
    first_name := pyOr firstName "n/a"
    last_name := pyOr lastName "n/a"
    full_name :=
      if firstName ≠ "" ∧ lastName ≠ "" then pyStrip (firstName ++ " " ++ lastName) else "n/a"
    affiliation := pyOr affiliation "n/a"
    email := pyOr email "n/a"
    papers := []
    total_citations := 0 }

/-- `_get_or_create_author`: scan for the best similarity match; a match
(score at least 0.7) is merged into and its id returned, otherwise a
new author record is created under a fresh id. -/
def getOrCreateAuthor (db : DB) (firstName lastName affiliation email : String) : Nat × DB :=
  match (findBestAuthor db.authors firstName lastName affiliation email).1 with
  | some bestId =>
    let authors1 := pyModify db.authors bestId (fun a => updateMatchedAuthor a affiliation email)
    (bestId, { db with authors := authors1 })
  | none =>
    let aid := db.nextId
    (aid,
      { db with
          nextId := db.nextId + 1
          authors := pySet db.authors aid (newAuthorRecord aid firstName lastName affiliation email) })

/-- `_get_or_create_author_by_name`: split the display name and resolve;
`none` propagates the `IndexError` of `_parse_name`. -/
def getOrCreateAuthorByName (db : DB) (name : String) : Option (Nat × DB) :=
  match parseName name with
  | none => none
  | some (firstName, lastName) => some (getOrCreateAuthor db firstName lastName "" "")

/-- The resolution loop of `_parse_authors` over the cleaned pieces. -/
def parseAuthorsLoop (db : DB) :
    List (String × Bool) → List Nat → List Nat → Except String (List Nat × List Nat) × DB
  | [], acc, corr => (Except.ok (acc, corr), db)
  | (name, isCorr) :: rest, acc, corr =>
    match getOrCreateAuthorByName db name with
    | none => (Except.error "IndexError", db)
    | some (aid, db1) =>
      parseAuthorsLoop db1 rest (acc ++ [aid]) (corr ++ if isCorr then [aid] else [])

/-- `_parse_authors`: resolve every cleaned author piece in order,
returning the ordered id list and the corresponding-author id list. -/
def parseAuthors (db : DB) (authorsStr : String) : Except String (List Nat × List Nat) × DB :=
  if authorsStr = "" then (Except.ok ([], []), db)
  else parseAuthorsLoop db (splitAuthors authorsStr) [] []

/-- The comparison name used when scanning stored venues: conferences
compare on `normalized_name` falling back to `name`, journals on `name`. -/
def storedVenueName (vtype : String) (v : Venue) : String :=
  if vtype = "conference" then v.normalized_name.getD v.name else v.name

/-- The scan of `self.venues.items()` in `_get_or_create_venue`: first
venue whose comparison name equals the key case-insensitively. -/
def findVenueMatch : List (Nat × Venue) → String → String → Option Nat
  | [], _, _ => none
  | (vid, v) :: rest, vtype, key =>
    if pyLower (storedVenueName vtype v) = pyLower key then some vid
    else findVenueMatch rest vtype key

/-- The merge step on a matched venue: back-fill classification fields
holding the sentinel, and add the missing `normalized_name` key to an
old conference record. -/
def updateMatchedVenue (v : Venue) (vtype key cas jcr ccf : String) : Venue :=
  let v1 := if cas ≠ "" ∧ v.cas_division = some "n/a" then
      { v with cas_division := some cas } else v
  let v2 := if jcr ≠ "" ∧ v1.jcr_division = some "n/a" then
      { v1 with jcr_division := some jcr } else v1
  let v3 := if ccf ≠ "" ∧ v2.ccf_class = some "n/a" then
      { v2 with ccf_class := some ccf } else v2
  if vtype = "conference" ∧ v3.normalized_name = none then
    { v3 with normalized_name := some key } else v3

/-- The record written for a brand-new venue (conference records carry
`normalized_name` and `ccf_class`; journal records carry the three
classification keys; other type tags carry neither). -/
def newVenueRecord (vid : Nat) (venueName vtype key publisher cas jcr ccf : String) : Venue :=
  { id := vid
    name := venueName
    vtype := vtype
    publisher := pyOr publisher "n/a"
    papers := []
    total_citations := 0
    normalized_name := if vtype = "conference" then some key else none
    ccf_class :=
      if vtype = "conference" ∨ vtype = "journal" then some (pyOr ccf "n/a") else none
    cas_division := if vtype = "journal" then some (pyOr cas "n/a") else none
    jcr_division := if vtype = "journal" then some (pyOr jcr "n/a") else none }

/-- The canonical comparison key of `_get_or_create_venue`: the
canonicalized name for conferences, the raw name for journals. -/
def venueKey (vtype venueName : String) : String :=
  if vtype = "conference" then normalizeConferenceName venueName else venueName

/-- `_get_or_create_venue`: canonicalize conference names, scan for a
case-insensitive match on the comparison name (no type filter), merge
into a match or create a new record under a fresh id. -/
def getOrCreateVenue (db : DB) (venueName vtype publisher cas jcr ccf : String) : Nat × DB :=
  let key := venueKey vtype venueName
  match findVenueMatch db.venues vtype key with
  | some vid =>
    let venues1 := pyModify db.venues vid (fun v => updateMatchedVenue v vtype key cas jcr ccf)
    (vid, { db with venues := venues1 })
  | none =>
    let vid := db.nextId
    (vid,
      { db with
          nextId := db.nextId + 1
          venues := pySet db.venues vid
            (newVenueRecord vid venueName vtype key publisher cas jcr ccf) })

/-- Sentinel-guarded back-fill of one author record from the positional
side-lists of `add_paper` (lines 346-349). -/
def backfillAuthorFields (aff em : String) (a : Author) : Author :=
  let a1 := if aff ≠ "" ∧ a.affiliation = "n/a" then { a with affiliation := aff } else a
  if em ≠ "" ∧ a1.email = "n/a" then { a1 with email := em } else a1

/-- The per-author back-fill loop of `add_paper`.  Padding the side-lists
with `None` up to the author count and then indexing is `List.getD i ""`
in this model (out-of-range and `None` entries both read as the falsy
value). -/
def backfillLoop (db : DB) : List Nat → Nat → List String → List String → DB
  | [], _, _, _ => db
  | aid :: rest, i, affs, emails =>
    let aff := affs.getD i ""
    let em := emails.getD i ""
    let db1 :=
      if (pyGet db.authors aid).isSome then
        { db with authors := pyModify db.authors aid (backfillAuthorFields aff em) }
      else db
    backfillLoop db1 rest (i + 1) affs emails

/-- Append a paper id and add its citations on an author record. -/
def appendPaperToAuthor (pid cit : Nat) (a : Author) : Author :=
  { a with papers := a.papers ++ [pid], total_citations := a.total_citations + cit }

/-- The back-reference loop of `add_paper` over the resolved author ids. -/
def updateAuthorRefs (pid cit : Nat) (db : DB) (aid : Nat) : DB :=
  if (pyGet db.authors aid).isSome then
    { db with authors := pyModify db.authors aid (appendPaperToAuthor pid cit) }
  else db

/-- Append a paper id and add its citations on a venue record. -/
def appendPaperToVenue (pid cit : Nat) (v : Venue) : Venue :=
  { v with papers := v.papers ++ [pid], total_citations := v.total_citations + cit }

/-- The venue back-reference step of `add_paper`. -/
def updateVenueRefs (pid cit : Nat) (db : DB) (venueId : Option Nat) : DB :=
  match venueId with
  | none => db
  | some vid =>
    if (pyGet db.venues vid).isSome then
      { db with venues := pyModify db.venues vid (appendPaperToVenue pid cit) }
    else db

/-- Abstract handling of `add_paper`: truncate to 1000 characters with an
ellipsis, or fall back to the sentinel when absent. -/
def truncateAbstract (abstract : String) : String :=
  if abstract ≠ "" ∧ 1000 < abstract.length then ⟨abstract.data.take 1000⟩ ++ "..."
  else pyOr abstract "n/a"

/-- `add_paper`: the validation gauntlet (title, authors, date, type,
venue name, emails — in source order, each failure raising before any
state is touched), then author resolution, positional back-fill, date
parsing, venue resolution, citation extraction, paper creation, and the
back-reference updates. -/
def addPaper (db : DB) (title authors publicationDate paperType venueName volume issue pages
    publisher abstract totalCitations : String)
    (authorAffiliations authorEmails : List String) (cas jcr ccf : String) :
    Except String Nat × DB :=
  if pyStrip title = "" then (Except.error "empty title", db)
  else if pyStrip authors = "" then (Except.error "empty authors", db)
  else if publicationDate = "" ∨ validateDate publicationDate = false then
    (Except.error "invalid publication date", db)
  else if paperType ≠ "journal" ∧ paperType ≠ "conference" then
    (Except.error "invalid paper type", db)
  else if pyStrip venueName = "" then (Except.error "empty venue name", db)
  else
    match authorEmails.find? (fun e => e != "" && !validateEmail e) with
    | some e => (Except.error ("invalid email: " ++ e), db)
    | none =>
      match parseAuthors db authors with
      | (Except.error msg, db1) => (Except.error msg, db1)
      | (Except.ok (authorIds, corrIds), db1) =>
        let db2 :=
          if authorAffiliations ≠ [] ∨ authorEmails ≠ [] then
            backfillLoop db1 authorIds 0 authorAffiliations authorEmails
          else db1
        let parsedDate := parseDate publicationDate
        let publicationYear := extractYearFromDate parsedDate
        let vr :=
          if venueName ≠ "" then
            let r := getOrCreateVenue db2 venueName paperType publisher cas jcr ccf
            (some r.1, r.2)
          else (none, db2)
        let venueId := vr.1
        let db3 := vr.2
        let cit := extractCitations totalCitations
        let pid := db3.nextId
        let db4 := { db3 with nextId := db3.nextId + 1 }
        let paper : Paper :=
          { id := pid
            title := pyStrip title
            ptype := paperType
            authors := authorIds
            corresponding_authors := corrIds
            publication_date := parsedDate
            publication_year := publicationYear
            venue_id := venueId
            volume := volume
            issue := issue
            pages := pyOr pages "n/a"
            publisher := pyOr publisher "n/a"
            abstract := truncateAbstract abstract
            total_citations := cit }
        let db5 := { db4 with papers := pySet db4.papers pid paper }
        let db6 := authorIds.foldl (updateAuthorRefs pid cit) db5
        let db7 := updateVenueRefs pid cit db6 venueId
        (Except.ok pid, db7)

/-- `add_author`: require a non-empty first or last name and a
syntactically valid email (when supplied), then resolve. -/
def addAuthor (db : DB) (firstName lastName affiliation email : String) :
    Except String Nat × DB :=
  if firstName = "" ∧ lastName = "" then (Except.error "first and last name both empty", db)
  else if email ≠ "" ∧ validateEmail email = false then
    (Except.error ("invalid email: " ++ email), db)
  else
    let r := getOrCreateAuthor db firstName lastName affiliation email
    (Except.ok r.1, r.2)

/-! ### Basic lemmas about the dict model -/

theorem pyGet_pyModify_ne {α : Type} (m : List (Nat × α)) (k id : Nat) (f : α → α)
    (h : k ≠ id) : pyGet (pyModify m k f) id = pyGet m id := by
  induction m with
  | nil => rfl
  | cons hd tl ih =>
    obtain ⟨k1, v1⟩ := hd
    by_cases hk : k1 = k
    · subst hk
      simp [pyModify, pyGet, h]
    · simp [pyModify, pyGet, hk]
      split <;> simp [ih]

theorem pyGet_pyModify_eq {α : Type} (m : List (Nat × α)) (k : Nat) (f : α → α) :
    pyGet (pyModify m k f) k = (pyGet m k).map f := by
  induction m with
  | nil => rfl
  | cons hd tl ih =>
    obtain ⟨k1, v1⟩ := hd
    by_cases hk : k1 = k
    · subst hk
      simp [pyModify, pyGet]
    · simp [pyModify, pyGet, hk, ih]

theorem pyGet_pySet_ne {α : Type} (m : List (Nat × α)) (k id : Nat) (v : α)
    (h : k ≠ id) : pyGet (pySet m k v) id = pyGet m id := by
  induction m with
  | nil => simp [pySet, pyGet, h]
  | cons hd tl ih =>
    obtain ⟨k1, v1⟩ := hd
    by_cases hk : k1 = k
    · subst hk
      simp [pySet, pyGet, h]
    · simp [pySet, pyGet, hk]
      split <;> simp [ih]

theorem pySet_eq_append {α : Type} (m : List (Nat × α)) (k : Nat) (v : α)
    (h : ∀ p ∈ m, p.1 ≠ k) : pySet m k v = m ++ [(k, v)] := by
  induction m with
  | nil => rfl
  | cons hd tl ih =>
    obtain ⟨k1, v1⟩ := hd
    have h1 : k1 ≠ k := h (k1, v1) (by simp)
    simp [pySet, h1]
    exact ih (fun p hp => h p (by simp [hp]))

/-! ### The best-match scan of author resolution -/

/-- Similarity score of a stored `(id, author)` pair against a candidate. -/
def scoreOf (firstName lastName affiliation email : String) (p : Nat × Author) : Nat :=
  authorSimilarityScore p.2 firstName lastName affiliation email

/-- Maximum of a list of scores (0 for the empty list). -/
def maxScoreNat (l : List Nat) : Nat := l.foldr max 0

theorem le_maxScoreNat {x : Nat} {l : List Nat} (h : x ∈ l) : x ≤ maxScoreNat l := by
  induction l with
  | nil => cases h
  | cons hd tl ih =>
    rcases List.mem_cons.mp h with h1 | h1
    · subst h1
      exact le_max_left _ _
    · exact le_trans (ih h1) (le_max_right _ _)

theorem foldl_bestStep_of_lt (fn ln aff em : String) (l : List (Nat × Author))
    (acc : Option Nat × Nat) (h : ∀ p ∈ l, scoreOf fn ln aff em p < 70) :
    l.foldl (bestStep fn ln aff em) acc = acc := by
  induction l generalizing acc with
  | nil => rfl
  | cons hd tl ih =>
    have hhd : scoreOf fn ln aff em hd < 70 := h hd (by simp)
    unfold scoreOf at hhd
    have hstep : bestStep fn ln aff em acc hd = acc := by
      unfold bestStep
      rw [if_neg]
      intro hc
      exact absurd hc.2 (by omega)
    rw [List.foldl_cons, hstep]
    exact ih _ (fun p hp => h p (by simp [hp]))

/-- A candidate with a name-only description scores at most 50: both the
affiliation and the email term of the score need a supplied value. -/
theorem authorSimilarityScore_no_contact_le (a : Author) (fn ln : String) :
    authorSimilarityScore a fn ln "" "" ≤ 50 := by
  unfold authorSimilarityScore
  simp only []
  split <;> simp

/-- With no affiliation and no email supplied, the best-match scan never
fires: every score stays below the 0.7 threshold. -/
theorem findBestAuthor_no_contact (authors : List (Nat × Author)) (fn ln : String) :
    findBestAuthor authors fn ln "" "" = (none, 0) := by
  unfold findBestAuthor
  exact foldl_bestStep_of_lt fn ln "" "" authors (none, 0)
    (fun p _ => lt_of_le_of_lt (authorSimilarityScore_no_contact_le p.2 fn ln) (by omega))

/-- C1 (amended): resolving the same `(first, last)` twice with neither
affiliation nor email supplied creates a fresh author on each call — the
name-only score 0.5 never reaches the 0.7 threshold — so the two calls
return the distinct identifiers `nextId` and `nextId + 1`. -/
theorem getOrCreateAuthor_nameOnly_fresh (db : DB) (firstName lastName : String) :
    (getOrCreateAuthor db firstName lastName "" "").1 = db.nextId ∧
    (getOrCreateAuthor (getOrCreateAuthor db firstName lastName "" "").2
        firstName lastName "" "").1 = db.nextId + 1 ∧
    (getOrCreateAuthor db firstName lastName "" "").1 ≠
      (getOrCreateAuthor (getOrCreateAuthor db firstName lastName "" "").2
        firstName lastName "" "").1 := by
  have h1 : getOrCreateAuthor db firstName lastName "" "" =
      (db.nextId,
        { db with
            nextId := db.nextId + 1
            authors := pySet db.authors db.nextId
              (newAuthorRecord db.nextId firstName lastName "" "") }) := by
    unfold getOrCreateAuthor
    rw [findBestAuthor_no_contact]
  have h2 : (getOrCreateAuthor (getOrCreateAuthor db firstName lastName "" "").2
      firstName lastName "" "").1 = (getOrCreateAuthor db firstName lastName "" "").2.nextId := by
    unfold getOrCreateAuthor
    rw [findBestAuthor_no_contact]
  refine ⟨by rw [h1], ?_, ?_⟩
  · rw [h2, h1]
  · rw [h2, h1]
    simp

/-- C1 counterexample: the claim "resolving twice returns the same
identifier both times" fails already on the first concrete input — the
two resolutions of ("Kai", "Liu") against an empty database return the
identifiers 0 and 1. -/
theorem getOrCreateAuthor_repeat_counterexample :
    (getOrCreateAuthor emptyDB "Kai" "Liu" "" "").1 ≠
      (getOrCreateAuthor (getOrCreateAuthor emptyDB "Kai" "Liu" "" "").2
        "Kai" "Liu" "" "").1 := by decide

/-- C10: `add_author` with a usable name but a malformed non-empty email
raises `ValueError` before touching any state: the whole database, in
particular the authors mapping, is returned unchanged. -/
theorem addAuthor_bad_email_rejected (db : DB) (firstName lastName affiliation email : String)
    (hname : firstName ≠ "" ∨ lastName ≠ "") (hne : email ≠ "")
    (hbad : validateEmail email = false) :
    ∃ msg, addAuthor db firstName lastName affiliation email = (Except.error msg, db) := by
  refine ⟨"invalid email: " ++ email, ?_⟩
  unfold addAuthor
  rw [if_neg, if_pos ⟨hne, hbad⟩]
  rcases hname with h | h
  · exact fun hc => h hc.1
  · exact fun hc => h hc.2

theorem addAuthor_bad_email_rejected_witness :
    ∃ msg, addAuthor emptyDB "Ann" "Lee" "" "not-an-email" = (Except.error msg, emptyDB) :=
  addAuthor_bad_email_rejected emptyDB "Ann" "Lee" "" "not-an-email"
    (Or.inl (by decide)) (by decide) (by decide)

/-- C2: every validation failure of `add_paper` — empty (stripped) title,
empty authors string, a date rejected by `_validate_date`, a type outside
{journal, conference}, an empty venue name, or a malformed non-empty
email among `author_emails` — raises `ValueError` before any state is
touched: the database comes back exactly as it went in, so no paper,
author or venue is created or mutated. -/
theorem addPaper_validation_error (db : DB)
    (title authors publicationDate paperType venueName volume issue pages
      publisher abstract totalCitations : String)
    (authorAffiliations authorEmails : List String) (cas jcr ccf : String)
    (h : pyStrip title = "" ∨ pyStrip authors = "" ∨ validateDate publicationDate = false ∨
      (paperType ≠ "journal" ∧ paperType ≠ "conference") ∨ pyStrip venueName = "" ∨
      ∃ e ∈ authorEmails, e ≠ "" ∧ validateEmail e = false) :
    ∃ msg, addPaper db title authors publicationDate paperType venueName volume issue pages
      publisher abstract totalCitations authorAffiliations authorEmails cas jcr ccf =
        (Except.error msg, db) := by
  by_cases h1 : pyStrip title = ""
  · exact ⟨"empty title", by unfold addPaper; rw [if_pos h1]⟩
  by_cases h2 : pyStrip authors = ""
  · exact ⟨"empty authors", by unfold addPaper; rw [if_neg h1, if_pos h2]⟩
  by_cases h3 : publicationDate = "" ∨ validateDate publicationDate = false
  · exact ⟨"invalid publication date", by unfold addPaper; rw [if_neg h1, if_neg h2, if_pos h3]⟩
  by_cases h4 : paperType ≠ "journal" ∧ paperType ≠ "conference"
  · exact ⟨"invalid paper type", by
      unfold addPaper; rw [if_neg h1, if_neg h2, if_neg h3, if_pos h4]⟩
  by_cases h5 : pyStrip venueName = ""
  · exact ⟨"empty venue name", by
      unfold addPaper; rw [if_neg h1, if_neg h2, if_neg h3, if_neg h4, if_pos h5]⟩
  have hmail : ∃ e ∈ authorEmails, e ≠ "" ∧ validateEmail e = false := by
    rcases h with hh | hh | hh | hh | hh | hh
    · exact absurd hh h1
    · exact absurd hh h2
    · exact absurd (Or.inr hh) h3
    · exact absurd hh h4
    · exact absurd hh h5
    · exact hh
  have hsome : ∃ e, authorEmails.find? (fun e => e != "" && !validateEmail e) = some e := by
    rw [← Option.isSome_iff_exists]
    rw [List.find?_isSome]
    obtain ⟨e, hmem, hne, hval⟩ := hmail
    refine ⟨e, hmem, ?_⟩
    simp [hne, hval]
  obtain ⟨e, hfind⟩ := hsome
  refine ⟨"invalid email: " ++ e, ?_⟩
  unfold addPaper
  rw [if_neg h1, if_neg h2, if_neg h3, if_neg h4, if_neg h5, hfind]

theorem addPaper_validation_error_witness :
    ∃ msg, addPaper emptyDB "T" "Ann Lee" "2020" "journal" "V" "" "" "" "" "" ""
      [] ["not-an-email"] "" "" "" = (Except.error msg, emptyDB) :=
  addPaper_validation_error emptyDB "T" "Ann Lee" "2020" "journal" "V" "" "" "" "" "" ""
    [] ["not-an-email"] "" "" ""
    (Or.inr (Or.inr (Or.inr (Or.inr (Or.inr
      ⟨"not-an-email", by decide, by decide, by decide⟩)))))

/-! ### Date parsing -/

theorem matchYear4_none (t : List Char)
    (h : ¬(4 ≤ t.length ∧ (t.take 4).all Char.isDigit = true)) : matchYear4 t = none := by
  match t with
  | [] => rfl
  | [c1] => rfl
  | [c1, c2] => rfl
  | [c1, c2, c3] => rfl
  | c1 :: c2 :: c3 :: c4 :: rest =>
    have hlen : 4 ≤ (c1 :: c2 :: c3 :: c4 :: rest).length := by
      simp only [List.length_cons]
      omega
    have hall : ¬((c1 :: c2 :: c3 :: c4 :: rest).take 4).all Char.isDigit = true :=
      fun hc => h ⟨hlen, hc⟩
    simp only [matchYear4]
    rw [if_neg]
    intro hc
    apply hall
    simp only [List.take_succ_cons, List.take_zero, List.all_cons, List.all_nil,
      Bool.and_eq_true] at hc ⊢
    tauto

theorem matchYMD_none (sepc : Char) (t : List Char)
    (h : ¬(4 ≤ t.length ∧ (t.take 4).all Char.isDigit = true)) : matchYMD sepc t = none := by
  match t with
  | [] => rfl
  | [c1] => rfl
  | [c1, c2] => rfl
  | [c1, c2, c3] => rfl
  | [c1, c2, c3, c4] => rfl
  | c1 :: c2 :: c3 :: c4 :: s :: rest =>
    have hlen : 4 ≤ (c1 :: c2 :: c3 :: c4 :: s :: rest).length := by
      simp only [List.length_cons]
      omega
    have hall : ¬((c1 :: c2 :: c3 :: c4 :: s :: rest).take 4).all Char.isDigit = true :=
      fun hc => h ⟨hlen, hc⟩
    simp only [matchYMD]
    rw [if_neg]
    intro hc
    apply hall
    simp only [List.take_succ_cons, List.take_zero, List.all_cons, List.all_nil,
      Bool.and_eq_true] at hc ⊢
    tauto

/-- C4 (amended): `_parse_date` matches its three patterns as prefixes
(the regexes are unanchored), so the never-raise passthrough holds
exactly for non-empty input whose stripped form does not begin with four
digits — no pattern can then match a prefix and the original string
comes back unchanged; empty input still gives null.  Input that begins
with four digits is converted even when trailing text follows. -/
theorem parseDate_passthrough (s : String) :
    (s ≠ "" →
      ¬(4 ≤ (pyStrip s).data.length ∧ ((pyStrip s).data.take 4).all Char.isDigit = true) →
      parseDate s = some s) ∧ parseDate "" = none := by
  constructor
  · intro hne h
    unfold parseDate
    rw [if_neg hne]
    simp only [matchYMD_none '/' _ h, matchYMD_none '-' _ h, matchYear4_none _ h]
  · rfl

/-- C4 counterexample: "2020 Conference" matches none of the three date
patterns (its full text is not a date, as `_validate_date` confirms),
yet `_parse_date` does not return it unchanged — the unanchored bare
year pattern matches the prefix "2020" and yields "2020-01-01". -/
theorem parseDate_prefix_counterexample :
    validateDate "2020 Conference" = false ∧
    parseDate "2020 Conference" = some "2020-01-01" ∧
    parseDate "2020 Conference" ≠ some "2020 Conference" := by decide

theorem parseDate_passthrough_witness :
    parseDate "July 2020" = some "July 2020" ∧ parseDate "" = none :=
  ⟨(parseDate_passthrough "July 2020").1 (by decide) (by decide),
    (parseDate_passthrough "").2⟩

theorem digit_not_ws (c : Char) (h : c.isDigit = true) : c.isWhitespace = false := by
  cases hw : c.isWhitespace
  · rfl
  · exfalso
    simp only [Char.isWhitespace, Bool.or_eq_true, decide_eq_true_eq] at hw
    rcases hw with ((hw | hw) | hw) | hw <;> subst hw <;> exact absurd h (by decide)

theorem dropWhile_eq_self_of_head {p : Char → Bool} :
    ∀ l : List Char, (∀ c ∈ l, p c = false) → l.dropWhile p = l := by
  intro l h
  cases l with
  | nil => rfl
  | cons a t =>
    rw [List.dropWhile_cons, h a (by simp)]
    simp

theorem pyStrip_eq_self (l : List Char) (h : ∀ c ∈ l, c.isWhitespace = false) :
    pyStrip ⟨l⟩ = ⟨l⟩ := by
  unfold pyStrip
  have hdata : (String.mk l).data = l := rfl
  rw [hdata, dropWhile_eq_self_of_head l h]
  have h2 : l.reverse.dropWhile Char.isWhitespace = l.reverse :=
    dropWhile_eq_self_of_head l.reverse (fun c hc => h c (List.mem_reverse.mp hc))
  rw [h2, List.reverse_reverse]

theorem mkStr_ne_empty (l : List Char) (h : l ≠ []) : (⟨l⟩ : String) ≠ "" := by
  intro hc
  apply h
  have : (String.mk l).data = ("" : String).data := by rw [hc]
  simpa using this

theorem exists_four_of_length {α : Type} (l : List α) (h : l.length = 4) :
    ∃ a b c d, l = [a, b, c, d] := by
  rcases l with _ | ⟨a, _ | ⟨b, _ | ⟨c, _ | ⟨d, _ | ⟨e, tl⟩⟩⟩⟩⟩ <;>
    simp only [List.length_cons, List.length_nil] at h
  · omega
  · omega
  · omega
  · omega
  · exact ⟨a, b, c, d, rfl⟩
  · omega

theorem exists_one_or_two {α : Type} (l : List α) (h : l.length = 1 ∨ l.length = 2) :
    (∃ x, l = [x]) ∨ (∃ x y, l = [x, y]) := by
  rcases l with _ | ⟨x, _ | ⟨y, _ | ⟨z, tl⟩⟩⟩ <;>
    simp only [List.length_cons, List.length_nil] at h
  · rcases h with h | h <;> omega
  · exact Or.inl ⟨x, rfl⟩
  · exact Or.inr ⟨x, y, rfl⟩
  · rcases h with h | h <;> omega

theorem dateChars_not_ws (y m d : List Char) (sep : Char)
    (hy : y.all Char.isDigit = true) (hm : m.all Char.isDigit = true)
    (hd : d.all Char.isDigit = true) (hsep : sep.isWhitespace = false) :
    ∀ ch ∈ y ++ sep :: m ++ sep :: d, ch.isWhitespace = false := by
  intro ch hch
  have hch2 : ch ∈ y ∨ ch = sep ∨ ch ∈ m ∨ ch = sep ∨ ch ∈ d := by
    simpa [List.mem_append, List.mem_cons, or_assoc] using hch
  rcases hch2 with h | h | h | h | h
  · exact digit_not_ws ch (List.all_eq_true.mp hy ch h)
  · subst h; exact hsep
  · exact digit_not_ws ch (List.all_eq_true.mp hm ch h)
  · subst h; exact hsep
  · exact digit_not_ws ch (List.all_eq_true.mp hd ch h)

/-- C8: a full-text match of `YYYY sep M sep D` (sep `/` or `-`, month and
day one or two digits) parses to the zero-padded ISO form, and a bare
four-digit year parses to `YYYY-01-01`. -/
theorem parseDate_valid_forms (y m d : List Char)
    (hy4 : y.length = 4) (hy : y.all Char.isDigit = true)
    (hm12 : m.length = 1 ∨ m.length = 2) (hm : m.all Char.isDigit = true)
    (hd12 : d.length = 1 ∨ d.length = 2) (hd : d.all Char.isDigit = true) :
    parseDate ⟨y ++ '/' :: m ++ '/' :: d⟩ =
      some ⟨y ++ '-' :: ((if m.length = 1 then '0' :: m else m) ++ '-' ::
        (if d.length = 1 then '0' :: d else d))⟩ ∧
    parseDate ⟨y ++ '-' :: m ++ '-' :: d⟩ =
      some ⟨y ++ '-' :: ((if m.length = 1 then '0' :: m else m) ++ '-' ::
        (if d.length = 1 then '0' :: d else d))⟩ ∧
    parseDate ⟨y⟩ = some ⟨y ++ ['-', '0', '1', '-', '0', '1']⟩ := by
  have hslash : pyStrip ⟨y ++ '/' :: m ++ '/' :: d⟩ = ⟨y ++ '/' :: m ++ '/' :: d⟩ :=
    pyStrip_eq_self _ (dateChars_not_ws y m d '/' hy hm hd (by decide))
  have hdash : pyStrip ⟨y ++ '-' :: m ++ '-' :: d⟩ = ⟨y ++ '-' :: m ++ '-' :: d⟩ :=
    pyStrip_eq_self _ (dateChars_not_ws y m d '-' hy hm hd (by decide))
  have hyear : pyStrip ⟨y⟩ = ⟨y⟩ :=
    pyStrip_eq_self _ (fun ch h => digit_not_ws ch (List.all_eq_true.mp hy ch h))
  obtain ⟨a, b, c, e, rfl⟩ := exists_four_of_length y hy4
  simp only [List.all_cons, List.all_nil, Bool.and_eq_true, and_true] at hy
  obtain ⟨ha, hb, hc, he⟩ := hy
  have hne1 : (⟨[a, b, c, e] ++ '/' :: m ++ '/' :: d⟩ : String) ≠ "" :=
    mkStr_ne_empty _ (by simp)
  have hne2 : (⟨[a, b, c, e] ++ '-' :: m ++ '-' :: d⟩ : String) ≠ "" :=
    mkStr_ne_empty _ (by simp)
  have hne3 : (⟨[a, b, c, e]⟩ : String) ≠ "" := mkStr_ne_empty _ (by simp)
  refine ⟨?_, ?_, ?_⟩
  · unfold parseDate
    rw [if_neg hne1, hslash]
    rcases exists_one_or_two m hm12 with ⟨m1, rfl⟩ | ⟨m1, m2, rfl⟩ <;>
      rcases exists_one_or_two d hd12 with ⟨d1, rfl⟩ | ⟨d1, d2, rfl⟩ <;>
      simp only [List.all_cons, List.all_nil, Bool.and_eq_true, and_true] at hm hd <;>
      simp [matchYMD, matchMonthDay, matchDay, zfill2, ha, hb, hc, he, hm, hd,
        List.cons_append, List.nil_append, List.replicate]
  · unfold parseDate
    rw [if_neg hne2, hdash]
    rcases exists_one_or_two m hm12 with ⟨m1, rfl⟩ | ⟨m1, m2, rfl⟩ <;>
      rcases exists_one_or_two d hd12 with ⟨d1, rfl⟩ | ⟨d1, d2, rfl⟩ <;>
      simp only [List.all_cons, List.all_nil, Bool.and_eq_true, and_true] at hm hd <;>
      simp [matchYMD, matchMonthDay, matchDay, zfill2, ha, hb, hc, he, hm, hd,
        List.cons_append, List.nil_append, List.replicate]
  · unfold parseDate
    rw [if_neg hne3, hyear]
    have h1 : matchYMD '/' [a, b, c, e] = none := rfl
    have h2 : matchYMD '-' [a, b, c, e] = none := rfl
    simp [h1, h2, matchYear4, ha, hb, hc, he]

theorem parseDate_valid_forms_witness :
    parseDate "2019/7/19" = some "2019-07-19" ∧
    parseDate "2019-7-19" = some "2019-07-19" ∧
    parseDate "2019" = some "2019-01-01" := by
  have h := parseDate_valid_forms ['2', '0', '1', '9'] ['7'] ['1', '9']
    (by decide) (by decide) (Or.inl (by decide)) (by decide) (Or.inr (by decide)) (by decide)
  obtain ⟨h1, h2, h3⟩ := h
  exact ⟨h1, h2, h3⟩

/-! ### Whitespace tokenizing -/

theorem wordStep_ne_nil (c : Char) (acc : List (List Char)) : wordStep c acc ≠ [] := by
  unfold wordStep
  split
  · simp
  · match acc with
    | [] => simp
    | w :: rest => simp

theorem foldr_wordStep_ne_nil (l : List Char) (X : List (List Char)) (hX : X ≠ []) :
    l.foldr wordStep X ≠ [] := by
  cases l with
  | nil => exact hX
  | cons c t => exact wordStep_ne_nil c (t.foldr wordStep X)

theorem wordStep_append (c : Char) (Y E : List (List Char)) (hY : Y ≠ []) :
    wordStep c (Y ++ E) = wordStep c Y ++ E := by
  unfold wordStep
  split
  · simp
  · match Y, hY with
    | y :: yt, _ => simp

theorem foldr_wordStep_append (l : List Char) (X E : List (List Char)) (hX : X ≠ []) :
    l.foldr wordStep (X ++ E) = l.foldr wordStep X ++ E := by
  induction l with
  | nil => rfl
  | cons c t ih =>
    simp only [List.foldr_cons, ih]
    exact wordStep_append c (t.foldr wordStep X) E (foldr_wordStep_ne_nil t X hX)

theorem splitChunks_all_ws (w : List Char) (hw : ∀ c ∈ w, c.isWhitespace = true) :
    splitChunks w = List.replicate (w.length + 1) [] := by
  induction w with
  | nil => rfl
  | cons c t ih =>
    have hc : c.isWhitespace = true := hw c (by simp)
    have ht := ih (fun x hx => hw x (by simp [hx]))
    simp only [splitChunks, List.foldr_cons] at ht ⊢
    rw [ht]
    unfold wordStep
    rw [if_pos hc]
    simp [List.replicate]

theorem filter_replicate_nil (n : Nat) :
    (List.replicate n ([] : List Char)).filter (fun w => w ≠ []) = [] := by
  induction n with
  | zero => rfl
  | succ k ih => simp [List.replicate, ih]

theorem pyWords_append_ws (l w : List Char) (hw : ∀ c ∈ w, c.isWhitespace = true) :
    pyWords (l ++ w) = pyWords l := by
  unfold pyWords
  have h1 : splitChunks (l ++ w) = splitChunks l ++ List.replicate w.length [] := by
    unfold splitChunks
    rw [List.foldr_append]
    have h2 : w.foldr wordStep [[]] = [[]] ++ List.replicate w.length [] := by
      have := splitChunks_all_ws w hw
      unfold splitChunks at this
      rw [this]
      simp [List.replicate_succ]
    rw [h2, foldr_wordStep_append l [[]] (List.replicate w.length []) (by simp)]
  rw [h1, List.filter_append, filter_replicate_nil]
  simp

theorem pyWords_dropWhile_ws (l : List Char) :
    pyWords (l.dropWhile Char.isWhitespace) = pyWords l := by
  induction l with
  | nil => rfl
  | cons c t ih =>
    by_cases hc : c.isWhitespace = true
    · rw [List.dropWhile_cons, if_pos hc, ih]
      unfold pyWords splitChunks
      simp only [List.foldr_cons]
      have : wordStep c (t.foldr wordStep [[]]) = [] :: t.foldr wordStep [[]] := by
        unfold wordStep
        rw [if_pos hc]
      rw [this]
      simp
    · rw [List.dropWhile_cons, if_neg hc]

theorem mem_takeWhile_ws {c : Char} {l : List Char}
    (h : c ∈ l.takeWhile Char.isWhitespace) : c.isWhitespace = true := by
  induction l with
  | nil => cases h
  | cons a t ih =>
    rw [List.takeWhile_cons] at h
    by_cases ha : a.isWhitespace = true
    · rw [if_pos ha] at h
      rcases List.mem_cons.mp h with h1 | h1
      · subst h1; exact ha
      · exact ih h1
    · rw [if_neg ha] at h
      cases h

/-- Stripping does not change the whitespace-delimited words of a string. -/
theorem pyWords_pyStrip (s : String) : pyWords (pyStrip s).data = pyWords s.data := by
  unfold pyStrip
  set a := s.data.dropWhile Char.isWhitespace with ha
  have hsplit : a = (a.reverse.dropWhile Char.isWhitespace).reverse ++
      (a.reverse.takeWhile Char.isWhitespace).reverse := by
    conv_lhs => rw [← List.reverse_reverse a,
      ← List.takeWhile_append_dropWhile (p := Char.isWhitespace) (l := a.reverse)]
    rw [List.reverse_append]
  have hws : ∀ c ∈ (a.reverse.takeWhile Char.isWhitespace).reverse, c.isWhitespace = true :=
    fun c hc => mem_takeWhile_ws (List.mem_reverse.mp hc)
  have h1 : pyWords ((a.reverse.dropWhile Char.isWhitespace).reverse) = pyWords a := by
    conv_rhs => rw [hsplit]
    exact (pyWords_append_ws _ _ hws).symm
  calc pyWords ((a.reverse.dropWhile Char.isWhitespace).reverse)
      = pyWords a := h1
    _ = pyWords s.data := by rw [ha]; exact pyWords_dropWhile_ws s.data

/-- C9 (amended): `_parse_name` whitespace-tokenizes its input and
dispatches on the token count as claimed for one, two, and three or more
tokens; with zero tokens, however, only the empty string returns the
sentinel pair — a non-empty all-whitespace input reaches
`name_parts[0]` on an empty list and raises `IndexError` (modelled as
`none`). -/
theorem parseName_cases (s : String) :
    (pyWords s.data = [] → parseName s = if s = "" then some ("n/a", "n/a") else none) ∧
    (∀ t, pyWords s.data = [t] → parseName s = some ("n/a", ⟨t⟩)) ∧
    (∀ a b, pyWords s.data = [a, b] → parseName s = some (⟨a⟩, ⟨b⟩)) ∧
    (∀ a b c rest, pyWords s.data = a :: b :: c :: rest →
      parseName s = some (⟨a⟩, String.intercalate " " ((b :: c :: rest).map String.mk))) := by
  by_cases hs : s = ""
  · subst hs
    refine ⟨fun _ => rfl, ?_, ?_, ?_⟩
    · intro t ht
      rw [show pyWords ("" : String).data = [] from rfl] at ht
      exact absurd ht (by simp)
    · intro a b ht
      rw [show pyWords ("" : String).data = [] from rfl] at ht
      exact absurd ht (by simp)
    · intro a b c rest ht
      rw [show pyWords ("" : String).data = [] from rfl] at ht
      exact absurd ht (by simp)
  · refine ⟨?_, ?_, ?_, ?_⟩
    · intro h
      unfold parseName
      rw [if_neg hs, pyWords_pyStrip, h, if_neg hs]
    · intro t h
      unfold parseName
      rw [if_neg hs, pyWords_pyStrip, h]
    · intro a b h
      unfold parseName
      rw [if_neg hs, pyWords_pyStrip, h]
    · intro a b c rest h
      unfold parseName
      rw [if_neg hs, pyWords_pyStrip, h]

/-- C9 counterexample: the all-whitespace input " " is non-empty but has
zero tokens; instead of the claimed sentinel pair `("n/a", "n/a")`,
`_parse_name` raises `IndexError` (the `none` of the model). -/
theorem parseName_whitespace_counterexample :
    pyWords (" " : String).data = [] ∧ parseName " " = none ∧
      parseName " " ≠ some ("n/a", "n/a") := by decide

theorem parseName_cases_witness :
    parseName "Liu" = some ("n/a", "Liu") ∧
    parseName "Kai Liu" = some ("Kai", "Liu") ∧
    parseName " Victor CS Lee " = some ("Victor", "CS Lee") := by
  refine ⟨?_, ?_, ?_⟩
  · exact (parseName_cases "Liu").2.1 "Liu".data (by decide)
  · exact (parseName_cases "Kai Liu").2.2.1 "Kai".data "Liu".data (by decide)
  · exact (parseName_cases " Victor CS Lee ").2.2.2 "Victor".data "CS".data "Lee".data []
      (by decide)

/-! ### Author string splitting -/

theorem mem_pyStrip_iff (l : List Char) (c : Char) (hc : c.isWhitespace = false) :
    c ∈ (pyStrip ⟨l⟩).data ↔ c ∈ l := by
  have hdata : (pyStrip ⟨l⟩).data =
      ((l.dropWhile Char.isWhitespace).reverse.dropWhile Char.isWhitespace).reverse := rfl
  set a := l.dropWhile Char.isWhitespace with ha
  have hsplit : a = (a.reverse.dropWhile Char.isWhitespace).reverse ++
      (a.reverse.takeWhile Char.isWhitespace).reverse := by
    conv_lhs => rw [← List.reverse_reverse a,
      ← List.takeWhile_append_dropWhile (p := Char.isWhitespace) (l := a.reverse)]
    rw [List.reverse_append]
  have hl : l = l.takeWhile Char.isWhitespace ++ a :=
    (List.takeWhile_append_dropWhile Char.isWhitespace l).symm
  rw [hdata]
  constructor
  · intro h
    have hmem : c ∈ a := by
      rw [hsplit]
      exact List.mem_append.mpr (Or.inl h)
    rw [hl]
    exact List.mem_append.mpr (Or.inr hmem)
  · intro h
    rw [hl] at h
    rcases List.mem_append.mp h with h1 | h1
    · rw [mem_takeWhile_ws h1] at hc
      cases hc
    · rw [hsplit] at h1
      rcases List.mem_append.mp h1 with h2 | h2
      · exact h2
      · rw [mem_takeWhile_ws (List.mem_reverse.mp h2)] at hc
        cases hc

theorem contains_star_pyStrip (piece : List Char) :
    (pyStrip ⟨piece⟩).data.contains '*' = piece.contains '*' := by
  have h := mem_pyStrip_iff piece '*' (by decide)
  cases h1 : (pyStrip ⟨piece⟩).data.contains '*' <;>
    cases h2 : piece.contains '*' <;> try rfl
  · rw [show ∀ l : List Char, l.contains '*' = l.elem '*' from fun _ => rfl] at h1 h2
    rw [List.elem_eq_true_of_mem (h.mpr (List.elem_iff.mp h2))] at h1
    cases h1
  · rw [show ∀ l : List Char, l.contains '*' = l.elem '*' from fun _ => rfl] at h1 h2
    rw [List.elem_eq_true_of_mem (h.mp (List.elem_iff.mp h1))] at h2
    cases h2

/-- C5 (amended): `_parse_authors` splits on commas, strips each piece,
removes all five marker glyphs from the name, and discards pieces that
become empty — but a piece is flagged as corresponding exactly when it
contains the ASTERISK: the other four glyphs `† ‡ § ¶` are stripped from
the name yet never set the flag (line 112 tests only `'*' in name`).
The spec example, which uses only `*`, does hold. -/
theorem splitAuthors_spec (s : String) :
    (s ≠ "" → splitAuthors s = (splitOnChar ',' s.data).filterMap (fun piece =>
      let cleanName := pyStrip ⟨(pyStrip ⟨piece⟩).data.filter (fun c => !markerGlyphs.contains c)⟩
      if cleanName = "" then none else some (cleanName, piece.contains '*'))) ∧
    splitAuthors "Kai Liu*, Xincao Xu" = [("Kai Liu", true), ("Xincao Xu", false)] := by
  constructor
  · intro hs
    unfold splitAuthors
    rw [if_neg hs]
    apply List.filterMap_congr
    intro piece _
    simp only [contains_star_pyStrip piece]
  · decide

/-- C5 counterexample: the piece "Kai Liu†" contains the marker glyph
`†` from the fixed set, so the claim requires `is_corresponding = true`;
the code strips the glyph but flags the author as NOT corresponding,
because only `*` is tested. -/
theorem splitAuthors_dagger_counterexample :
    markerGlyphs.contains '†' = true ∧ ('†' ∈ ("Kai Liu†" : String).data) ∧
      splitAuthors "Kai Liu†" = [("Kai Liu", false)] := by decide

theorem splitAuthors_spec_witness :
    splitAuthors "Kai Liu*, Xincao Xu" =
      (splitOnChar ',' ("Kai Liu*, Xincao Xu" : String).data).filterMap (fun piece =>
        let cleanName :=
          pyStrip ⟨(pyStrip ⟨piece⟩).data.filter (fun c => !markerGlyphs.contains c)⟩
        if cleanName = "" then none else some (cleanName, piece.contains '*')) :=
  (splitAuthors_spec "Kai Liu*, Xincao Xu").1 (by decide)

/-! ### The best-match loop returns the earliest maximal scorer -/

theorem foldl_bestStep_max_le (fn ln aff em : String) (l : List (Nat × Author)) :
    ∀ (i : Nat) (s : Nat), maxScoreNat (l.map (scoreOf fn ln aff em)) ≤ s →
      l.foldl (bestStep fn ln aff em) (some i, s) = (some i, s) := by
  induction l with
  | nil => intro i s _; rfl
  | cons hd tl ih =>
    intro i s hle
    have hhd : scoreOf fn ln aff em hd ≤ s := by
      refine le_trans ?_ hle
      exact le_maxScoreNat (by simp)
    have htl : maxScoreNat (tl.map (scoreOf fn ln aff em)) ≤ s := by
      refine le_trans ?_ hle
      simp only [List.map_cons, maxScoreNat, List.foldr_cons]
      exact le_max_right _ _
    have hstep : bestStep fn ln aff em (some i, s) hd = (some i, s) := by
      unfold bestStep
      rw [if_neg]
      intro hc
      unfold scoreOf at hhd
      exact absurd hc.1 (by simp; omega)
    rw [List.foldl_cons, hstep]
    exact ih i s htl

theorem foldl_bestStep_gt (fn ln aff em : String) (l : List (Nat × Author)) :
    ∀ (i : Nat) (s : Nat), 70 ≤ s → s < maxScoreNat (l.map (scoreOf fn ln aff em)) →
      ∃ p, l.find? (fun q => scoreOf fn ln aff em q == maxScoreNat
          (l.map (scoreOf fn ln aff em))) = some p ∧
        l.foldl (bestStep fn ln aff em) (some i, s) =
          (some p.1, maxScoreNat (l.map (scoreOf fn ln aff em))) := by
  induction l with
  | nil =>
    intro i s _ hlt
    exact absurd hlt (by simp [maxScoreNat])
  | cons hd tl ih =>
    intro i s h70 hlt
    have hM : maxScoreNat ((hd :: tl).map (scoreOf fn ln aff em)) =
        max (scoreOf fn ln aff em hd) (maxScoreNat (tl.map (scoreOf fn ln aff em))) := by
      simp [maxScoreNat]
    by_cases hcase : maxScoreNat (tl.map (scoreOf fn ln aff em)) ≤ scoreOf fn ln aff em hd
    · -- the head is (one of) the maximal scorers: it is the first one
      have hMhd : maxScoreNat ((hd :: tl).map (scoreOf fn ln aff em)) =
          scoreOf fn ln aff em hd := by
        rw [hM]
        omega
      have hshd : s < scoreOf fn ln aff em hd := by
        rw [hMhd] at hlt
        exact hlt
      have hMhd2 : maxScoreNat (scoreOf fn ln aff em hd :: List.map (scoreOf fn ln aff em) tl)
          = scoreOf fn ln aff em hd := by
        simpa only [List.map_cons] using hMhd
      refine ⟨hd, ?_, ?_⟩
      · rw [List.find?_cons_of_pos]
        simp [hMhd2]
      · have hstep : bestStep fn ln aff em (some i, s) hd =
            (some hd.1, scoreOf fn ln aff em hd) := by
          unfold bestStep scoreOf at hshd ⊢
          rw [if_pos ⟨hshd, by omega⟩]
        rw [List.foldl_cons, hstep, hMhd]
        exact foldl_bestStep_max_le fn ln aff em tl hd.1 _ (by omega)
    · -- the maximum lives strictly inside the tail
      push_neg at hcase
      have hMtl : maxScoreNat ((hd :: tl).map (scoreOf fn ln aff em)) =
          maxScoreNat (tl.map (scoreOf fn ln aff em)) := by
        rw [hM]
        omega
      have hMtl2 : maxScoreNat (scoreOf fn ln aff em hd :: List.map (scoreOf fn ln aff em) tl)
          = maxScoreNat (List.map (scoreOf fn ln aff em) tl) := by
        simpa only [List.map_cons] using hMtl
      have hfind : ¬(scoreOf fn ln aff em hd =
          maxScoreNat (scoreOf fn ln aff em hd :: List.map (scoreOf fn ln aff em) tl)) := by
        rw [hMtl2]
        omega
      by_cases hup : s < scoreOf fn ln aff em hd ∧ 70 ≤ scoreOf fn ln aff em hd
      · have hstep : bestStep fn ln aff em (some i, s) hd =
            (some hd.1, scoreOf fn ln aff em hd) := by
          unfold bestStep scoreOf at hup ⊢
          rw [if_pos hup]
        obtain ⟨p, hp1, hp2⟩ := ih hd.1 (scoreOf fn ln aff em hd) hup.2 hcase
        refine ⟨p, ?_, ?_⟩
        · rw [List.find?_cons_of_neg _ (by simp [hfind]), hMtl]
          exact hp1
        · rw [List.foldl_cons, hstep, hMtl]
          exact hp2
      · have hstep : bestStep fn ln aff em (some i, s) hd = (some i, s) := by
          unfold bestStep
          rw [if_neg]
          intro hc
          exact hup ⟨hc.1, hc.2⟩
        have hlt2 : s < maxScoreNat (tl.map (scoreOf fn ln aff em)) := by
          rw [hMtl] at hlt
          exact hlt
        obtain ⟨p, hp1, hp2⟩ := ih i s h70 hlt2
        refine ⟨p, ?_, ?_⟩
        · rw [List.find?_cons_of_neg _ (by simp [hfind]), hMtl]
          exact hp1
        · rw [List.foldl_cons, hstep, hMtl]
          exact hp2

theorem foldl_bestStep_none_start (fn ln aff em : String) (l : List (Nat × Author))
    (h : ∃ p ∈ l, 70 ≤ scoreOf fn ln aff em p) :
    ∃ p, l.find? (fun q => scoreOf fn ln aff em q ==
        maxScoreNat (l.map (scoreOf fn ln aff em))) = some p ∧
      l.foldl (bestStep fn ln aff em) (none, 0) =
        (some p.1, maxScoreNat (l.map (scoreOf fn ln aff em))) := by
  induction l with
  | nil =>
    obtain ⟨p, hp, _⟩ := h
    cases hp
  | cons hd tl ih =>
    by_cases hhd : 70 ≤ scoreOf fn ln aff em hd
    · have hstep : bestStep fn ln aff em (none, 0) hd =
          (some hd.1, scoreOf fn ln aff em hd) := by
        unfold bestStep scoreOf at hhd ⊢
        rw [if_pos ⟨by omega, hhd⟩]
      by_cases hcase : maxScoreNat (tl.map (scoreOf fn ln aff em)) ≤ scoreOf fn ln aff em hd
      · have hMhd2 : maxScoreNat (scoreOf fn ln aff em hd :: List.map (scoreOf fn ln aff em) tl)
            = scoreOf fn ln aff em hd := by
          simp only [maxScoreNat, List.foldr_cons]
          have := hcase
          unfold maxScoreNat at this
          omega
        refine ⟨hd, ?_, ?_⟩
        · rw [List.find?_cons_of_pos]
          simp [hMhd2]
        · rw [List.foldl_cons, hstep]
          simp only [List.map_cons, hMhd2]
          exact foldl_bestStep_max_le fn ln aff em tl hd.1 _ hcase
      · push_neg at hcase
        obtain ⟨p, hp1, hp2⟩ :=
          foldl_bestStep_gt fn ln aff em tl hd.1 (scoreOf fn ln aff em hd) hhd hcase
        have hMtl2 : maxScoreNat (scoreOf fn ln aff em hd :: List.map (scoreOf fn ln aff em) tl)
            = maxScoreNat (List.map (scoreOf fn ln aff em) tl) := by
          simp only [maxScoreNat, List.foldr_cons]
          have := hcase
          unfold maxScoreNat at this
          omega
        have hfind : ¬(scoreOf fn ln aff em hd =
            maxScoreNat (scoreOf fn ln aff em hd :: List.map (scoreOf fn ln aff em) tl)) := by
          rw [hMtl2]
          omega
        refine ⟨p, ?_, ?_⟩
        · rw [List.find?_cons_of_neg _ (by simp [hfind])]
          simp only [List.map_cons, hMtl2]
          exact hp1
        · rw [List.foldl_cons, hstep]
          simp only [List.map_cons, hMtl2]
          exact hp2
    · push_neg at hhd
      have hex : ∃ p ∈ tl, 70 ≤ scoreOf fn ln aff em p := by
        obtain ⟨p, hp, hs⟩ := h
        rcases List.mem_cons.mp hp with h1 | h1
        · subst h1
          omega
        · exact ⟨p, h1, hs⟩
      obtain ⟨p, hp1, hp2⟩ := ih hex
      have h70M : 70 ≤ maxScoreNat (tl.map (scoreOf fn ln aff em)) := by
        obtain ⟨q, hq, hs⟩ := hex
        exact le_trans hs (le_maxScoreNat (List.mem_map_of_mem _ hq))
      have hMtl2 : maxScoreNat (scoreOf fn ln aff em hd :: List.map (scoreOf fn ln aff em) tl)
          = maxScoreNat (List.map (scoreOf fn ln aff em) tl) := by
        simp only [maxScoreNat, List.foldr_cons]
        unfold maxScoreNat at h70M
        omega
      have hfind : ¬(scoreOf fn ln aff em hd =
          maxScoreNat (scoreOf fn ln aff em hd :: List.map (scoreOf fn ln aff em) tl)) := by
        rw [hMtl2]
        omega
      have hstep : bestStep fn ln aff em (none, 0) hd = (none, 0) := by
        unfold bestStep
        rw [if_neg]
        intro hc
        unfold scoreOf at hhd
        omega
      refine ⟨p, ?_, ?_⟩
      · rw [List.find?_cons_of_neg _ (by simp [hfind])]
        simp only [List.map_cons, hMtl2]
        exact hp1
      · rw [List.foldl_cons, hstep]
        simp only [List.map_cons, hMtl2]
        exact hp2

/-- C3: when some stored author reaches the 0.7 threshold, resolution
returns the identifier of the earliest-inserted author whose score is
maximal over the whole table (`find?` of the maximum over the table in
insertion order: a strictly greater score replaces the running best, an
equal score keeps the earlier entry); when no author reaches 0.7 —
including the empty table — a fresh identifier is returned and a new
record is stored carrying the supplied fields with missing ones set to
the sentinel "n/a" and an empty paper list. -/
theorem getOrCreateAuthor_resolution (db : DB) (fn ln aff em : String) :
    ((∃ p ∈ db.authors, 70 ≤ scoreOf fn ln aff em p) →
      ∃ p, db.authors.find? (fun q => scoreOf fn ln aff em q ==
          maxScoreNat (db.authors.map (scoreOf fn ln aff em))) = some p ∧
        70 ≤ maxScoreNat (db.authors.map (scoreOf fn ln aff em)) ∧
        (getOrCreateAuthor db fn ln aff em).1 = p.1) ∧
    ((∀ p ∈ db.authors, scoreOf fn ln aff em p < 70) →
      getOrCreateAuthor db fn ln aff em =
        (db.nextId,
          { db with
              nextId := db.nextId + 1
              authors := pySet db.authors db.nextId
                { id := db.nextId
                  first_name := if fn = "" then "n/a" else fn
                  last_name := if ln = "" then "n/a" else ln
                  full_name := if fn ≠ "" ∧ ln ≠ "" then pyStrip (fn ++ " " ++ ln) else "n/a"
                  affiliation := if aff = "" then "n/a" else aff
                  email := if em = "" then "n/a" else em
                  papers := []
                  total_citations := 0 } })) := by
  constructor
  · intro h
    obtain ⟨p, hp1, hp2⟩ := foldl_bestStep_none_start fn ln aff em db.authors h
    have h70M : 70 ≤ maxScoreNat (db.authors.map (scoreOf fn ln aff em)) := by
      obtain ⟨q, hq, hs⟩ := h
      exact le_trans hs (le_maxScoreNat (List.mem_map_of_mem _ hq))
    refine ⟨p, hp1, h70M, ?_⟩
    unfold getOrCreateAuthor findBestAuthor
    rw [hp2]
  · intro h
    have hb : findBestAuthor db.authors fn ln aff em = (none, 0) :=
      foldl_bestStep_of_lt fn ln aff em db.authors (none, 0) h
    unfold getOrCreateAuthor
    rw [hb]
    simp [newAuthorRecord, pyOr]

/-- A stored author used to exercise the match branch of resolution. -/
def sampleAuthor : Author :=
  { id := 0, first_name := "Kai", last_name := "Liu", full_name := "Kai Liu",
    affiliation := "MIT", email := "k@mit.edu", papers := [], total_citations := 0 }

/-- A database holding exactly `sampleAuthor`. -/
def sampleDB : DB := { papers := [], authors := [(0, sampleAuthor)], venues := [], nextId := 1 }

/-- The record resolution is expected to create for ("Ann", "Lee"). -/
def annLeeRecord : Author :=
  { id := 0, first_name := "Ann", last_name := "Lee", full_name := "Ann Lee",
    affiliation := "n/a", email := "n/a", papers := [], total_citations := 0 }

theorem getOrCreateAuthor_resolution_witness :
    (∃ p, sampleDB.authors.find? (fun q => scoreOf "Kai" "Liu" "MIT" "k@mit.edu" q ==
        maxScoreNat (sampleDB.authors.map (scoreOf "Kai" "Liu" "MIT" "k@mit.edu"))) = some p ∧
      70 ≤ maxScoreNat (sampleDB.authors.map (scoreOf "Kai" "Liu" "MIT" "k@mit.edu")) ∧
      (getOrCreateAuthor sampleDB "Kai" "Liu" "MIT" "k@mit.edu").1 = p.1) ∧
    getOrCreateAuthor emptyDB "Ann" "Lee" "" "" =
      (0, { papers := [], authors := [(0, annLeeRecord)], venues := [], nextId := 1 }) := by
  constructor
  · exact (getOrCreateAuthor_resolution sampleDB "Kai" "Liu" "MIT" "k@mit.edu").1 (by decide)
  · have h := (getOrCreateAuthor_resolution emptyDB "Ann" "Lee" "" "").2 (by decide)
    rw [h]
    decide

/-! ### Venue resolution -/

theorem findVenueMatch_none (venues : List (Nat × Venue)) (vtype key : String)
    (h : ∀ p ∈ venues, pyLower (storedVenueName vtype p.2) ≠ pyLower key) :
    findVenueMatch venues vtype key = none := by
  induction venues with
  | nil => rfl
  | cons hd tl ih =>
    obtain ⟨vid, v⟩ := hd
    simp only [findVenueMatch]
    rw [if_neg (h (vid, v) (by simp))]
    exact ih (fun p hp => h p (by simp [hp]))

theorem findVenueMatch_append_last (m : List (Nat × Venue)) (k : Nat) (v : Venue)
    (vtype key : String)
    (hm : ∀ p ∈ m, pyLower (storedVenueName vtype p.2) ≠ pyLower key)
    (hv : pyLower (storedVenueName vtype v) = pyLower key) :
    findVenueMatch (m ++ [(k, v)]) vtype key = some k := by
  induction m with
  | nil =>
    rw [List.nil_append]
    simp only [findVenueMatch]
    rw [if_pos hv]
  | cons hd tl ih =>
    obtain ⟨vid, w⟩ := hd
    rw [List.cons_append]
    simp only [findVenueMatch]
    rw [if_neg (hm (vid, w) (by simp))]
    exact ih (fun p hp => hm p (by simp [hp]))

theorem getOrCreateVenue_create (db : DB) (venueName vtype publisher cas jcr ccf : String)
    (hnone : findVenueMatch db.venues vtype (venueKey vtype venueName) = none) :
    getOrCreateVenue db venueName vtype publisher cas jcr ccf =
      (db.nextId,
        { db with
            nextId := db.nextId + 1
            venues := pySet db.venues db.nextId
              (newVenueRecord db.nextId venueName vtype (venueKey vtype venueName)
                publisher cas jcr ccf) }) := by
  simp only [getOrCreateVenue]
  rw [hnone]

theorem getOrCreateVenue_match (db : DB) (venueName vtype publisher cas jcr ccf : String)
    (vid : Nat) (hsome : findVenueMatch db.venues vtype (venueKey vtype venueName) = some vid) :
    getOrCreateVenue db venueName vtype publisher cas jcr ccf =
      (vid, { db with venues := pyModify db.venues vid (fun v => updateMatchedVenue v vtype (venueKey vtype venueName) cas jcr ccf) }) := by
  simp only [getOrCreateVenue]
  rw [hsome]

/-- C6 (amended): venue lookup compares the canonical key case
insensitively and never filters by type, so a journal and a conference
collide into one record WHEN their comparison keys agree: on a database
whose venue table has no match for either key, resolving a journal named
`D` and then a conference named `D` returns the same identifier provided
conference canonicalization leaves `D` unchanged up to case.  (When it
does not — e.g. the name carries a year token — the two calls return
different identifiers, refuting the claim for a shared display name in
general.) -/
theorem venue_journal_conference_collision (db : DB) (displayName : String)
    (hkey : pyLower (normalizeConferenceName displayName) = pyLower displayName)
    (hfresh : ∀ p ∈ db.venues, p.1 ≠ db.nextId)
    (hnoj : ∀ p ∈ db.venues, pyLower (storedVenueName "journal" p.2) ≠ pyLower displayName)
    (hnoc : ∀ p ∈ db.venues, pyLower (storedVenueName "conference" p.2) ≠ pyLower displayName) :
    (getOrCreateVenue db displayName "journal" "" "" "" "").1 =
      (getOrCreateVenue (getOrCreateVenue db displayName "journal" "" "" "" "").2
        displayName "conference" "" "" "" "").1 := by
  have hkeyj : venueKey "journal" displayName = displayName := by
    unfold venueKey
    rw [if_neg (by decide)]
  have hkeyc : venueKey "conference" displayName = normalizeConferenceName displayName := by
    unfold venueKey
    rw [if_pos rfl]
  have hnone1 : findVenueMatch db.venues "journal" (venueKey "journal" displayName) = none := by
    rw [hkeyj]
    exact findVenueMatch_none _ _ _ hnoj
  have h1 := getOrCreateVenue_create db displayName "journal" "" "" "" "" hnone1
  rw [h1]
  have happend : pySet db.venues db.nextId
      (newVenueRecord db.nextId displayName "journal" (venueKey "journal" displayName)
        "" "" "" "") =
      db.venues ++ [(db.nextId,
        newVenueRecord db.nextId displayName "journal" (venueKey "journal" displayName)
          "" "" "" "")] :=
    pySet_eq_append _ _ _ hfresh
  have hstored : storedVenueName "conference"
      (newVenueRecord db.nextId displayName "journal" (venueKey "journal" displayName)
        "" "" "" "") = displayName := by
    unfold storedVenueName newVenueRecord
    rw [if_pos rfl]
    rw [if_neg (by decide : ¬(("journal" : String) = "conference"))]
    rfl
  have hmatch : findVenueMatch
      (db.venues ++ [(db.nextId,
        newVenueRecord db.nextId displayName "journal" (venueKey "journal" displayName)
          "" "" "" "")])
      "conference" (venueKey "conference" displayName) = some db.nextId := by
    apply findVenueMatch_append_last
    · intro p hp
      rw [hkeyc, hkey]
      exact hnoc p hp
    · rw [hstored, hkeyc, hkey]
  have h2 := getOrCreateVenue_match
    { db with
        nextId := db.nextId + 1
        venues := pySet db.venues db.nextId
          (newVenueRecord db.nextId displayName "journal" (venueKey "journal" displayName)
            "" "" "" "") }
    displayName "conference" "" "" "" "" db.nextId
    (by
      show findVenueMatch
        (pySet db.venues db.nextId
          (newVenueRecord db.nextId displayName "journal" (venueKey "journal" displayName)
            "" "" "" ""))
        "conference" (venueKey "conference" displayName) = some db.nextId
      rw [happend]
      exact hmatch)
  rw [h2]

/-- C6 counterexample: a journal and a conference SHARING THE DISPLAY
NAME "2022 ITSC" do not collide — canonicalization strips the year from
the conference key, the stored journal name keeps it, so the second call
creates a second venue (identifiers 0 and 1). -/
theorem venue_display_name_counterexample :
    (getOrCreateVenue emptyDB "2022 ITSC" "journal" "" "" "" "").1 ≠
      (getOrCreateVenue (getOrCreateVenue emptyDB "2022 ITSC" "journal" "" "" "" "").2
        "2022 ITSC" "conference" "" "" "" "").1 := by decide

theorem venue_journal_conference_collision_witness :
    (getOrCreateVenue emptyDB "ITSC" "journal" "" "" "" "").1 =
      (getOrCreateVenue (getOrCreateVenue emptyDB "ITSC" "journal" "" "" "" "").2
        "ITSC" "conference" "" "" "" "").1 :=
  venue_journal_conference_collision emptyDB "ITSC" (by decide) (by decide) (by decide)
    (by decide)

/-! ### First-writer-wins on author affiliation and email -/

/-- The preservation invariant for one tracked author: the id is below
the fresh counter, the record is present, and any non-sentinel original
affiliation or email is still there. -/
def preservesAuthor (id : Nat) (a0 : Author) (db : DB) : Prop :=
  id < db.nextId ∧ ∃ a, pyGet db.authors id = some a ∧
    (a0.affiliation ≠ "n/a" → a.affiliation = a0.affiliation) ∧
    (a0.email ≠ "n/a" → a.email = a0.email)

theorem updateMatchedAuthor_pres (a : Author) (aff em : String) :
    (a.affiliation ≠ "n/a" → (updateMatchedAuthor a aff em).affiliation = a.affiliation) ∧
    (a.email ≠ "n/a" → (updateMatchedAuthor a aff em).email = a.email) := by
  unfold updateMatchedAuthor
  constructor
  · intro h
    rw [if_neg (show ¬(aff ≠ "" ∧ a.affiliation = "n/a") from fun hc => h hc.2)]
    show (if em ≠ "" ∧ a.email = "n/a" then ({ a with email := em } : Author)
      else a).affiliation = a.affiliation
    split <;> rfl
  · intro h
    by_cases hP : aff ≠ "" ∧ a.affiliation = "n/a"
    · rw [if_pos hP]
      show (if em ≠ "" ∧ a.email = "n/a" then ({ a with affiliation := aff, email := em } : Author)
        else { a with affiliation := aff }).email = a.email
      rw [if_neg (fun hc => h hc.2)]
    · rw [if_neg hP]
      show (if em ≠ "" ∧ a.email = "n/a" then ({ a with email := em } : Author)
        else a).email = a.email
      rw [if_neg (fun hc => h hc.2)]

theorem backfillAuthorFields_pres (a : Author) (aff em : String) :
    (a.affiliation ≠ "n/a" → (backfillAuthorFields aff em a).affiliation = a.affiliation) ∧
    (a.email ≠ "n/a" → (backfillAuthorFields aff em a).email = a.email) := by
  unfold backfillAuthorFields
  constructor
  · intro h
    rw [if_neg (show ¬(aff ≠ "" ∧ a.affiliation = "n/a") from fun hc => h hc.2)]
    show (if em ≠ "" ∧ a.email = "n/a" then ({ a with email := em } : Author)
      else a).affiliation = a.affiliation
    split <;> rfl
  · intro h
    by_cases hP : aff ≠ "" ∧ a.affiliation = "n/a"
    · rw [if_pos hP]
      show (if em ≠ "" ∧ a.email = "n/a" then ({ a with affiliation := aff, email := em } : Author)
        else { a with affiliation := aff }).email = a.email
      rw [if_neg (fun hc => h hc.2)]
    · rw [if_neg hP]
      show (if em ≠ "" ∧ a.email = "n/a" then ({ a with email := em } : Author)
        else a).email = a.email
      rw [if_neg (fun hc => h hc.2)]

theorem preservesAuthor_modify (db : DB) (bid : Nat) (f : Author → Author)
    (hf : ∀ a : Author, (a.affiliation ≠ "n/a" → (f a).affiliation = a.affiliation) ∧
      (a.email ≠ "n/a" → (f a).email = a.email))
    (id : Nat) (a0 : Author) (h : preservesAuthor id a0 db) :
    preservesAuthor id a0 { db with authors := pyModify db.authors bid f } := by
  obtain ⟨hlt, a, hget, hA, hE⟩ := h
  refine ⟨hlt, ?_⟩
  by_cases hbid : bid = id
  · subst hbid
    refine ⟨f a, ?_, ?_, ?_⟩
    · show pyGet (pyModify db.authors bid f) bid = some (f a)
      rw [pyGet_pyModify_eq, hget]
      rfl
    · intro h0
      rw [(hf a).1 (by rw [hA h0]; exact h0)]
      exact hA h0
    · intro h0
      rw [(hf a).2 (by rw [hE h0]; exact h0)]
      exact hE h0
  · refine ⟨a, ?_, hA, hE⟩
    show pyGet (pyModify db.authors bid f) id = some a
    rw [pyGet_pyModify_ne _ _ _ _ hbid]
    exact hget

theorem preservesAuthor_getOrCreateAuthor (db : DB) (fn ln aff em : String) (id : Nat)
    (a0 : Author) (h : preservesAuthor id a0 db) :
    preservesAuthor id a0 (getOrCreateAuthor db fn ln aff em).2 := by
  unfold getOrCreateAuthor
  cases hfind : (findBestAuthor db.authors fn ln aff em).1 with
  | some bid =>
    exact preservesAuthor_modify db bid _
      (fun a => ⟨(updateMatchedAuthor_pres a aff em).1, (updateMatchedAuthor_pres a aff em).2⟩)
      id a0 h
  | none =>
    obtain ⟨hlt, a, hget, hA, hE⟩ := h
    refine ⟨?_, a, ?_, hA, hE⟩
    · show id < db.nextId + 1
      omega
    · show pyGet (pySet db.authors db.nextId (newAuthorRecord db.nextId fn ln aff em)) id
        = some a
      rw [pyGet_pySet_ne _ _ _ _ (by omega)]
      exact hget

theorem preservesAuthor_parseAuthorsLoop (pieces : List (String × Bool)) :
    ∀ (db : DB) (acc corr : List Nat) (id : Nat) (a0 : Author), preservesAuthor id a0 db →
      preservesAuthor id a0 (parseAuthorsLoop db pieces acc corr).2 := by
  induction pieces with
  | nil =>
    intro db acc corr id a0 h
    exact h
  | cons hd tl ih =>
    intro db acc corr id a0 h
    obtain ⟨name, isCorr⟩ := hd
    simp only [parseAuthorsLoop]
    cases hby : getOrCreateAuthorByName db name with
    | none => exact h
    | some pr =>
      obtain ⟨aid, db1⟩ := pr
      have hdb1 : preservesAuthor id a0 db1 := by
        unfold getOrCreateAuthorByName at hby
        cases hpn : parseName name with
        | none =>
          rw [hpn] at hby
          cases hby
        | some fl =>
          obtain ⟨f1, l1⟩ := fl
          rw [hpn] at hby
          have hinj : getOrCreateAuthor db f1 l1 "" "" = (aid, db1) := by
            injection hby
          have hp := preservesAuthor_getOrCreateAuthor db f1 l1 "" "" id a0 h
          rw [hinj] at hp
          exact hp
      exact ih db1 _ _ id a0 hdb1

theorem preservesAuthor_parseAuthors (db : DB) (s : String) (id : Nat) (a0 : Author)
    (h : preservesAuthor id a0 db) : preservesAuthor id a0 (parseAuthors db s).2 := by
  unfold parseAuthors
  split
  · exact h
  · exact preservesAuthor_parseAuthorsLoop (splitAuthors s) db [] [] id a0 h

theorem preservesAuthor_backfillLoop (ids : List Nat) :
    ∀ (db : DB) (i : Nat) (affs ems : List String) (id : Nat) (a0 : Author),
      preservesAuthor id a0 db → preservesAuthor id a0 (backfillLoop db ids i affs ems) := by
  induction ids with
  | nil =>
    intro db i affs ems id a0 h
    exact h
  | cons aid rest ih =>
    intro db i affs ems id a0 h
    simp only [backfillLoop]
    apply ih
    split
    · exact preservesAuthor_modify db aid _
        (fun a => ⟨(backfillAuthorFields_pres a _ _).1, (backfillAuthorFields_pres a _ _).2⟩)
        id a0 h
    · exact h

theorem preservesAuthor_updateAuthorRefs (pid cit : Nat) (db : DB) (aid : Nat) (id : Nat)
    (a0 : Author) (h : preservesAuthor id a0 db) :
    preservesAuthor id a0 (updateAuthorRefs pid cit db aid) := by
  unfold updateAuthorRefs
  split
  · exact preservesAuthor_modify db aid (appendPaperToAuthor pid cit)
      (fun a => ⟨fun _ => rfl, fun _ => rfl⟩) id a0 h
  · exact h

theorem preservesAuthor_foldl_updateAuthorRefs (ids : List Nat) (pid cit : Nat) :
    ∀ (db : DB) (id : Nat) (a0 : Author), preservesAuthor id a0 db →
      preservesAuthor id a0 (ids.foldl (updateAuthorRefs pid cit) db) := by
  induction ids with
  | nil =>
    intro db id a0 h
    exact h
  | cons aid rest ih =>
    intro db id a0 h
    rw [List.foldl_cons]
    exact ih _ id a0 (preservesAuthor_updateAuthorRefs pid cit db aid id a0 h)

theorem preservesAuthor_getOrCreateVenue (db : DB) (venueName vtype publisher cas jcr ccf : String)
    (id : Nat) (a0 : Author) (h : preservesAuthor id a0 db) :
    preservesAuthor id a0 (getOrCreateVenue db venueName vtype publisher cas jcr ccf).2 := by
  obtain ⟨hlt, a, hget, hA, hE⟩ := h
  simp only [getOrCreateVenue]
  cases hfind : findVenueMatch db.venues vtype (venueKey vtype venueName) with
  | some vid => exact ⟨hlt, a, hget, hA, hE⟩
  | none =>
    refine ⟨?_, a, hget, hA, hE⟩
    show id < db.nextId + 1
    omega

theorem preservesAuthor_updateVenueRefs (pid cit : Nat) (db : DB) (venueId : Option Nat)
    (id : Nat) (a0 : Author) (h : preservesAuthor id a0 db) :
    preservesAuthor id a0 (updateVenueRefs pid cit db venueId) := by
  unfold updateVenueRefs
  split
  · exact h
  · split
    · exact ⟨h.1, h.2⟩
    · exact h

theorem preservesAuthor_succ (db : DB) (id : Nat) (a0 : Author)
    (h : preservesAuthor id a0 db) :
    preservesAuthor id a0 { db with nextId := db.nextId + 1 } :=
  ⟨Nat.lt_succ_of_lt h.1, h.2⟩

theorem preservesAuthor_addPaper (db : DB)
    (title authors publicationDate paperType venueName volume issue pages
      publisher abstract totalCitations : String)
    (authorAffiliations authorEmails : List String) (cas jcr ccf : String)
    (id : Nat) (a0 : Author) (h : preservesAuthor id a0 db) :
    preservesAuthor id a0 (addPaper db title authors publicationDate paperType venueName
      volume issue pages publisher abstract totalCitations
      authorAffiliations authorEmails cas jcr ccf).2 := by
  unfold addPaper
  split
  · exact h
  split
  · exact h
  split
  · exact h
  split
  · exact h
  split
  · exact h
  split
  · exact h
  split
  next msg db1 heq =>
    have hp := preservesAuthor_parseAuthors db authors id a0 h
    rw [heq] at hp
    exact hp
  next authorIds corrIds db1 heq =>
    have hp1 : preservesAuthor id a0 db1 := by
      have hp := preservesAuthor_parseAuthors db authors id a0 h
      rw [heq] at hp
      exact hp
    dsimp only
    have h2 : preservesAuthor id a0
        (if authorAffiliations ≠ [] ∨ authorEmails ≠ [] then
          backfillLoop db1 authorIds 0 authorAffiliations authorEmails else db1) := by
      split
      · exact preservesAuthor_backfillLoop authorIds db1 0 _ _ id a0 hp1
      · exact hp1
    have h3 : preservesAuthor id a0
        ((if venueName ≠ "" then
            (some (getOrCreateVenue
                (if authorAffiliations ≠ [] ∨ authorEmails ≠ [] then
                  backfillLoop db1 authorIds 0 authorAffiliations authorEmails else db1)
                venueName paperType publisher cas jcr ccf).1,
              (getOrCreateVenue
                (if authorAffiliations ≠ [] ∨ authorEmails ≠ [] then
                  backfillLoop db1 authorIds 0 authorAffiliations authorEmails else db1)
                venueName paperType publisher cas jcr ccf).2)
          else (none,
            (if authorAffiliations ≠ [] ∨ authorEmails ≠ [] then
              backfillLoop db1 authorIds 0 authorAffiliations authorEmails else db1))).2) := by
      split
      · exact preservesAuthor_getOrCreateVenue _ venueName paperType publisher cas jcr ccf
          id a0 h2
      · exact h2
    exact preservesAuthor_updateVenueRefs _ _ _ _ id a0
      (preservesAuthor_foldl_updateAuthorRefs authorIds _ _ _ id a0
        (preservesAuthor_succ _ id a0 h3))

/-- C7: once a stored author carries a real (non-sentinel) affiliation
or email, no later operation changes it — neither author resolution on a
later appearance (which back-fills only fields equal to "n/a") nor the
positional back-fill and back-reference updates of `add_paper`.  The
freshness bound `id < nextId` reflects that stored identifiers were
generated by earlier fresh-id draws. -/
theorem author_first_writer_wins (db : DB) (id : Nat) (a0 : Author)
    (hget : pyGet db.authors id = some a0) (hfresh : id < db.nextId)
    (fn ln aff em : String)
    (title authors publicationDate paperType venueName volume issue pages
      publisher abstract totalCitations : String)
    (authorAffiliations authorEmails : List String) (cas jcr ccf : String) :
    (∃ a1, pyGet (getOrCreateAuthor db fn ln aff em).2.authors id = some a1 ∧
      (a0.affiliation ≠ "n/a" → a1.affiliation = a0.affiliation) ∧
      (a0.email ≠ "n/a" → a1.email = a0.email)) ∧
    (∃ a2, pyGet (addPaper db title authors publicationDate paperType venueName volume issue
        pages publisher abstract totalCitations
        authorAffiliations authorEmails cas jcr ccf).2.authors id = some a2 ∧
      (a0.affiliation ≠ "n/a" → a2.affiliation = a0.affiliation) ∧
      (a0.email ≠ "n/a" → a2.email = a0.email)) := by
  have h0 : preservesAuthor id a0 db := ⟨hfresh, a0, hget, fun _ => rfl, fun _ => rfl⟩
  exact ⟨(preservesAuthor_getOrCreateAuthor db fn ln aff em id a0 h0).2,
    (preservesAuthor_addPaper db title authors publicationDate paperType venueName volume
      issue pages publisher abstract totalCitations
      authorAffiliations authorEmails cas jcr ccf id a0 h0).2⟩

theorem author_first_writer_wins_witness :
    (∃ a1, pyGet (getOrCreateAuthor sampleDB "Kai" "Liu" "ETH" "x@eth.ch").2.authors 0
        = some a1 ∧
      (sampleAuthor.affiliation ≠ "n/a" → a1.affiliation = sampleAuthor.affiliation) ∧
      (sampleAuthor.email ≠ "n/a" → a1.email = sampleAuthor.email)) ∧
    (∃ a2, pyGet (addPaper sampleDB "T" "Kai Liu" "2020" "journal" "V" "" "" "" "" "" ""
        ["ETH"] ["x@eth.ch"] "" "" "").2.authors 0 = some a2 ∧
      (sampleAuthor.affiliation ≠ "n/a" → a2.affiliation = sampleAuthor.affiliation) ∧
      (sampleAuthor.email ≠ "n/a" → a2.email = sampleAuthor.email)) :=
  author_first_writer_wins sampleDB 0 sampleAuthor (by decide) (by decide)
    "Kai" "Liu" "ETH" "x@eth.ch" "T" "Kai Liu" "2020" "journal" "V" "" "" "" "" "" ""
    ["ETH"] ["x@eth.ch"] "" "" ""
